/-
Verification development for the QuantEcon option-pricing notebook
(`ddp_ex_MF_7_6_4_py.ipynb`, Miranda & Fackler §7.6.4).

The notebook builds a finite Markov decision process for an American put
option on a binomial price lattice (parameter cell, `ps`/`n`/`m`/`L`,
`s_indices`/`a_indices`, reward vector `R`, sparse transition matrix `Q`)
and hands it to the library routine `backward_induction`.  Floating-point
values are modelled by real numbers.

The array-construction code is embedded below definition-by-definition
with the source names.  The backward-induction solver itself is imported
by the notebook from an external library, so it is modelled from the
design specification (§4.2): Q-value backup, max over the feasible
state-action pairs of each state, argmax with ties broken towards the
lowest action index.
-/
import Mathlib

namespace OptionDDP

noncomputable section

open Real

/-- Model inputs, from the notebook's parameter cell:
`T` (years to expiration), `vol` (annual volatility), `r` (annual interest
rate), `strike` (strike price), `p0` (current price), `N` (number of
periods to expiration). -/
structure Params where
  T : ℝ
  vol : ℝ
  r : ℝ
  strike : ℝ
  p0 : ℝ
  N : ℕ

/-- `tau = T/N`: time length of a period. -/
def tau (P : Params) : ℝ := P.T / P.N

/-- `beta = np.exp(-r*tau)`: discount factor. -/
def beta (P : Params) : ℝ := Real.exp (-(P.r * tau P))

/-- `u = np.exp(vol*np.sqrt(tau))`: up-jump factor. -/
def u (P : Params) : ℝ := Real.exp (P.vol * Real.sqrt (tau P))

/-- `q = 1/2 + np.sqrt(tau)*(r - (vol**2)/2)/(2*vol)`: up-jump probability. -/
def q (P : Params) : ℝ := 1 / 2 + Real.sqrt (tau P) * (P.r - P.vol ^ 2 / 2) / (2 * P.vol)

/-- `ps = u**np.arange(-N, N+1) * p0`: the lattice of `2N+1` possible
price values, entry `k` (for `k = 0..2N`) being `u^(k-N) * p0`. -/
def ps (P : Params) (k : ℕ) : ℝ := u P ^ ((k : ℤ) - P.N) * P.p0

/-- `n = len(ps) + 1`: number of states; state `n-1` is "the option has
been exercised". -/
def n (P : Params) : ℕ := (2 * P.N + 1) + 1

/-- `m = 2`: number of actions (0: hold, 1: exercise). -/
def m : ℕ := 2

/-- `L = n*m - 1`: number of feasible state-action pairs (at state `n-1`
there is only one action, "do nothing"). -/
def L (P : Params) : ℕ := n P * m - 1

/-- `s_indices` after `sa_indices(n, m)` (state-major enumeration) and the
`[:-1]` truncation: the state of flat pair `i` is `i / m`. -/
def s_indices (i : ℕ) : ℕ := i / m

/-- `a_indices` after `sa_indices(n, m)` and the `[:-1]` truncation: the
action of flat pair `i` is `i % m`. -/
def a_indices (i : ℕ) : ℕ := i % m

/-- The reward vector: `R[:, 0] = 0`, `R[:-1, 1] = strike - ps`, then
ravelled to one entry per state-action pair (the infeasible last pair is
dropped; entries `i < L` are the meaningful ones). -/
def R (P : Params) (i : ℕ) : ℝ :=
  if i % m = 0 then 0 else P.strike - ps P (i / m)

/-- The transition probability array `Q`, an `L × n` sparse matrix.
For pair rows `i < L-1`: the hold rows (`a_indices[i] == 0`) set
`Q[i, min(s+1, len(ps)-1)] = q` and then `Q[i, max(s-1, 0)] = 1 - q`
(the second assignment wins on a clash, and `len(ps) - 1 = 2N`), the
exercise rows set `Q[i, n-1] = 1`; finally `Q[L-1, n-1] = 1`. -/
def Q (P : Params) (i j : ℕ) : ℝ :=
  if i = L P - 1 then (if j = n P - 1 then 1 else 0)
  else if a_indices i = 0 then
    (if j = s_indices i - 1 then 1 - q P
     else if j = min (s_indices i + 1) (2 * P.N) then q P
     else 0)
  else (if j = n P - 1 then 1 else 0)

/-- A finite MDP in state-action-pairs form, as passed to `DiscreteDP`:
state count, pair count, state/action index maps, the reward vector, the
transition rows and the discount factor. -/
structure MDP where
  n : ℕ
  L : ℕ
  s_indices : ℕ → ℕ
  a_indices : ℕ → ℕ
  R : ℕ → ℝ
  Q : ℕ → ℕ → ℝ
  beta : ℝ

/-- `DiscreteDP(R, Q, beta, s_indices, a_indices)`: the MDP the notebook
builds from the parameters. -/
def build (P : Params) : MDP where
  n := n P
  L := L P
  s_indices := s_indices
  a_indices := a_indices
  R := R P
  Q := Q P
  beta := beta P

/-- Build-time error taxonomy of the specification (§7). -/
inductive BuildError where
  | InvalidParameter
deriving DecidableEq

/-- Modelled from the spec: the notebook itself performs no input
validation (its parameter cell just assigns constants), but §4.1/§7
specify that building fails with `InvalidParameter` when any input is
non-positive or `num_periods < 1`, and that otherwise the MDP of §3 is
produced. -/
def build_checked (P : Params) : Except BuildError MDP :=
  @ite _ (0 < P.T ∧ 0 < P.vol ∧ 0 < P.r ∧ 0 < P.strike ∧ 0 < P.p0 ∧ 1 ≤ P.N)
    (Classical.propDecidable _)
    (Except.ok (build P))
    (Except.error BuildError.InvalidParameter)

/-- Modelled from the spec: the solver's Q-value backup (§4.2),
`Q(s,a) = reward(s,a) + β · Σ_{s'} P(s,a,s') · V_{t+1}(s')`, expressed on
the flat pair index `i`. -/
def qval (M : MDP) (v : ℕ → ℝ) (i : ℕ) : ℝ :=
  M.R i + M.beta * ∑ j ∈ Finset.range M.n, M.Q i j * v j

/-- Modelled from the spec: the feasible state-action pairs of state `s`,
in enumeration order (state-major, action-minor), read off the pair list. -/
def pairsOf (M : MDP) (s : ℕ) : List ℕ :=
  (List.range M.L).filter (fun i => M.s_indices i = s)

/-- Modelled from the spec: left fold selecting the index with the largest
`f`-value, keeping the earlier index on ties. -/
def argfold (f : ℕ → ℝ) (b : ℕ) (l : List ℕ) : ℕ :=
  l.foldl (fun x j => if f x < f j then j else x) b

/-- Modelled from the spec: the first index of `l` attaining the maximal
`f`-value (`none` on the empty list). -/
def bestIdx (f : ℕ → ℝ) : List ℕ → Option ℕ
  | [] => none
  | i :: is => some (argfold f i is)

/-- Modelled from the spec: one backup step for the value,
`V_t(s) = max_a Q(s,a)` over the feasible actions of `s` (`0` for a state
with no feasible pair, which does not occur for states of a built MDP). -/
def backValue (M : MDP) (v : ℕ → ℝ) (s : ℕ) : ℝ :=
  (bestIdx (qval M v) (pairsOf M s)).elim 0 (qval M v)

/-- Modelled from the spec: one backup step for the policy,
`policy_t(s) = argmax_a Q(s,a)` with ties broken by the lowest action
index (the pair list is enumerated action-minor). -/
def backAction (M : MDP) (v : ℕ → ℝ) (s : ℕ) : ℕ :=
  (bestIdx (qval M v) (pairsOf M s)).elim 0 M.a_indices

/-- Modelled from the spec: iterated backups; `vIter M vT k` is the value
vector with `k` periods remaining, starting from the terminal vector `vT`. -/
def vIter (M : MDP) (vT : ℕ → ℝ) : ℕ → ℕ → ℝ
  | 0 => vT
  | k + 1 => backValue M (vIter M vT k)

/-- Modelled from the spec: row `t` of the `(N+1) × n` value array of
`backward_induction` with horizon `H` and terminal vector `vT`:
`V_t = vIter (H - t)`, so row `H` is the terminal vector. -/
def valueSeq (M : MDP) (H : ℕ) (vT : ℕ → ℝ) (t : ℕ) : ℕ → ℝ :=
  vIter M vT (H - t)

/-- Modelled from the spec: row `t` of the `N × n` policy array of
`backward_induction`: the argmax against `V_{t+1}`. -/
def policySeq (M : MDP) (H : ℕ) (vT : ℕ → ℝ) (t : ℕ) : ℕ → ℕ :=
  backAction M (vIter M vT (H - (t + 1)))

/-- The default terminal value vector: all zeros. -/
def vzero : ℕ → ℝ := fun _ => 0

/-- Action `a` is feasible at state `s`: some enumerated pair carries it. -/
def feasible (M : MDP) (s a : ℕ) : Prop :=
  ∃ i, i < M.L ∧ M.s_indices i = s ∧ M.a_indices i = a

/-- A concrete valid parameter set with `vol^2 = 2 r`, so that the derived
up-jump probability is exactly `1/2`. -/
def P0 : Params := ⟨1, 1, 1 / 2, 1, 1, 1⟩

/-- A concrete valid parameter set (high volatility) whose derived up-jump
probability is negative. -/
def Pneg : Params := ⟨1, 10, 1, 1, 1, 1⟩

/-- A concrete valid parameter set (high interest rate, `q = 9/4 > 1`),
with strike price `2`. -/
def Pc1 : Params := ⟨2, 1, 4, 2, 1, 2⟩

/-- The same parameter set as `Pc1` except for a larger strike price `3`. -/
def Pc2 : Params := ⟨2, 1, 4, 3, 1, 2⟩

/-! ### Basic facts about the built MDP -/

lemma n_eq (P : Params) : n P = 2 * P.N + 2 := rfl

lemma L_eq (P : Params) : L P = 4 * P.N + 3 := by
  simp [L, n, m]; omega

lemma build_n (P : Params) : (build P).n = n P := rfl

lemma build_L (P : Params) : (build P).L = L P := rfl

lemma build_s_indices (P : Params) : (build P).s_indices = s_indices := rfl

lemma build_a_indices (P : Params) : (build P).a_indices = a_indices := rfl

lemma build_R (P : Params) : (build P).R = R P := rfl

lemma build_Q (P : Params) : (build P).Q = Q P := rfl

lemma build_beta (P : Params) : (build P).beta = beta P := rfl

lemma beta_pos (P : Params) : 0 < beta P := Real.exp_pos _

/-- Filtering `range k` by `i / 2 = s` leaves the (at most two) flat pair
indices of state `s` that are below `k`, in order. -/
lemma filter_range_div_two (s : ℕ) :
    ∀ k : ℕ, (List.range k).filter (fun i => i / 2 = s) =
      (if 2 * s < k then [2 * s] else []) ++ (if 2 * s + 1 < k then [2 * s + 1] else [])
  | 0 => by simp
  | k + 1 => by
    rw [List.range_succ, List.filter_append, filter_range_div_two s k]
    rcases Nat.lt_trichotomy k (2 * s) with hk | hk | hk
    · have h1 : ¬ (2 * s < k) := by omega
      have h2 : ¬ (2 * s + 1 < k) := by omega
      have h3 : ¬ (2 * s < k + 1) := by omega
      have h4 : ¬ (2 * s + 1 < k + 1) := by omega
      have h5 : ¬ (k / 2 = s) := by omega
      simp [h1, h2, h3, h4, h5]
    · have h1 : ¬ (2 * s < k) := by omega
      have h2 : ¬ (2 * s + 1 < k) := by omega
      have h3 : 2 * s < k + 1 := by omega
      have h4 : ¬ (2 * s + 1 < k + 1) := by omega
      have h5 : k / 2 = s := by omega
      simp [h1, h2, h3, h4, h5, hk]
    · rcases Nat.lt_trichotomy k (2 * s + 1) with hk' | hk' | hk'
      · omega
      · subst hk'
        have c1 : 2 * s < 2 * s + 1 := by omega
        have c2 : ¬ (2 * s + 1 < 2 * s + 1) := by omega
        have c3 : 2 * s < 2 * s + 1 + 1 := by omega
        have c4 : 2 * s + 1 < 2 * s + 1 + 1 := by omega
        have h5 : (2 * s + 1) / 2 = s := by omega
        simp [c1, c2, c3, c4, h5]
      · have h1 : 2 * s < k := by omega
        have h2 : 2 * s + 1 < k := by omega
        have h3 : 2 * s < k + 1 := by omega
        have h4 : 2 * s + 1 < k + 1 := by omega
        have h5 : ¬ (k / 2 = s) := by omega
        simp [h1, h2, h3, h4, h5]

/-- A price state `s ≤ 2N` has exactly the two pairs `2s` (hold) and
`2s+1` (exercise), in this order. -/
lemma pairsOf_price (P : Params) {s : ℕ} (hs : s ≤ 2 * P.N) :
    pairsOf (build P) s = [2 * s, 2 * s + 1] := by
  have h1 : 2 * s < L P := by rw [L_eq]; omega
  have h2 : 2 * s + 1 < L P := by rw [L_eq]; omega
  simp [pairsOf, build_L, build_s_indices, s_indices, m,
    filter_range_div_two s (L P), h1, h2]

/-- The absorbing state `n-1 = 2N+1` has exactly the single pair `L-1`. -/
lemma pairsOf_absorbing (P : Params) :
    pairsOf (build P) (2 * P.N + 1) = [4 * P.N + 2] := by
  have h1 : 4 * P.N + 2 < L P := by rw [L_eq]; omega
  have h2 : ¬ (4 * P.N + 2 + 1 < L P) := by rw [L_eq]; omega
  have h3 : 2 * (2 * P.N + 1) = 4 * P.N + 2 := by omega
  simpa [pairsOf, build_L, build_s_indices, s_indices, m, h1, h2, h3]
    using filter_range_div_two (2 * P.N + 1) (L P)

/-- Indices beyond the absorbing state have no pairs. -/
lemma pairsOf_out (P : Params) {s : ℕ} (hs : 2 * P.N + 1 < s) :
    pairsOf (build P) s = [] := by
  have h1 : ¬ (2 * s < L P) := by rw [L_eq]; omega
  have h2 : ¬ (2 * s + 1 < L P) := by rw [L_eq]; omega
  simpa [pairsOf, build_L, build_s_indices, s_indices, m, h1, h2]
    using filter_range_div_two s (L P)

/-! ### Evaluating the sparse transition rows -/

/-- Summing a row with (at most) two sparse entries against a vector. -/
lemma sum_two_ite (k d e : ℕ) (x y : ℝ) (v : ℕ → ℝ) (hde : d ≠ e)
    (hd : d < k) (he : e < k) :
    ∑ j ∈ Finset.range k, (if j = d then x else if j = e then y else 0) * v j
      = x * v d + y * v e := by
  have hpt : ∀ j, (if j = d then x else if j = e then y else 0) * v j
      = (if j = d then x * v j else 0) + (if j = e then y * v j else 0) := by
    intro j
    by_cases hjd : j = d
    · subst hjd; simp [hde]
    · by_cases hje : j = e
      · subst hje; simp [hjd]
      · simp [hjd, hje]
  calc ∑ j ∈ Finset.range k, (if j = d then x else if j = e then y else 0) * v j
      = ∑ j ∈ Finset.range k,
          ((if j = d then x * v j else 0) + (if j = e then y * v j else 0)) := by
        exact Finset.sum_congr rfl (fun j _ => hpt j)
    _ = x * v d + y * v e := by
        rw [Finset.sum_add_distrib, Finset.sum_ite_eq' (Finset.range k) d,
          Finset.sum_ite_eq' (Finset.range k) e]
        simp [Finset.mem_range.mpr hd, Finset.mem_range.mpr he]

/-- Summing a row with a single sparse entry against a vector. -/
lemma sum_one_ite (k d : ℕ) (x : ℝ) (v : ℕ → ℝ) (hd : d < k) :
    ∑ j ∈ Finset.range k, (if j = d then x else 0) * v j = x * v d := by
  have hpt : ∀ j, (if j = d then x else 0) * v j = (if j = d then x * v j else 0) := by
    intro j; by_cases hjd : j = d <;> simp [hjd]
  rw [Finset.sum_congr rfl (fun j _ => hpt j),
    Finset.sum_ite_eq' (Finset.range k) d]
  simp [Finset.mem_range.mpr hd]

/-! ### The Q-values of the built MDP -/

lemma R_hold (P : Params) (s : ℕ) : R P (2 * s) = 0 := by
  have h : 2 * s % m = 0 := by simp only [m]; omega
  simp [R, h]

lemma R_ex (P : Params) (s : ℕ) : R P (2 * s + 1) = P.strike - ps P s := by
  have h1 : ¬ ((2 * s + 1) % m = 0) := by simp only [m]; omega
  have h2 : (2 * s + 1) / m = s := by simp only [m]; omega
  simp [R, h1, h2]

lemma Q_hold_row (P : Params) {s : ℕ} (hs : s ≤ 2 * P.N) (j : ℕ) :
    Q P (2 * s) j =
      (if j = s - 1 then 1 - q P
       else if j = min (s + 1) (2 * P.N) then q P else 0) := by
  have h1 : ¬ (2 * s = L P - 1) := by rw [L_eq]; omega
  have h2 : a_indices (2 * s) = 0 := by simp only [a_indices, m]; omega
  have h3 : s_indices (2 * s) = s := by simp only [s_indices, m]; omega
  simp [Q, h1, h2, h3]

lemma Q_ex_row (P : Params) (s j : ℕ) :
    Q P (2 * s + 1) j = (if j = 2 * P.N + 1 then 1 else 0) := by
  have h1 : ¬ (2 * s + 1 = L P - 1) := by rw [L_eq]; omega
  have h2 : ¬ (a_indices (2 * s + 1) = 0) := by simp only [a_indices, m]; omega
  have h3 : n P - 1 = 2 * P.N + 1 := by rw [n_eq]; omega
  simp [Q, h1, h2, h3]

lemma Q_last_row (P : Params) (j : ℕ) :
    Q P (4 * P.N + 2) j = (if j = 2 * P.N + 1 then 1 else 0) := by
  have h1 : 4 * P.N + 2 = L P - 1 := by rw [L_eq]; omega
  have h3 : n P - 1 = 2 * P.N + 1 := by rw [n_eq]; omega
  simp [Q, ← h1, h3]

lemma qval_hold (P : Params) (hN : 1 ≤ P.N) {s : ℕ} (hs : s ≤ 2 * P.N)
    (v : ℕ → ℝ) :
    qval (build P) v (2 * s) =
      beta P * ((1 - q P) * v (s - 1) + q P * v (min (s + 1) (2 * P.N))) := by
  have hde : s - 1 ≠ min (s + 1) (2 * P.N) := by omega
  have hd : s - 1 < n P := by rw [n_eq]; omega
  have he : min (s + 1) (2 * P.N) < n P := by rw [n_eq]; omega
  rw [qval, build_n, build_beta, build_R, build_Q, R_hold]
  rw [Finset.sum_congr rfl (fun j _ => by rw [Q_hold_row P hs j])]
  rw [sum_two_ite (n P) (s - 1) (min (s + 1) (2 * P.N)) (1 - q P) (q P) v hde hd he]
  ring

lemma qval_ex (P : Params) (s : ℕ) (v : ℕ → ℝ) :
    qval (build P) v (2 * s + 1) =
      (P.strike - ps P s) + beta P * v (2 * P.N + 1) := by
  have hd : 2 * P.N + 1 < n P := by rw [n_eq]; omega
  rw [qval, build_n, build_beta, build_R, build_Q, R_ex]
  rw [Finset.sum_congr rfl (fun j _ => by rw [Q_ex_row P s j])]
  rw [sum_one_ite (n P) (2 * P.N + 1) 1 v hd]
  ring

lemma qval_last (P : Params) (v : ℕ → ℝ) :
    qval (build P) v (4 * P.N + 2) = beta P * v (2 * P.N + 1) := by
  have hd : 2 * P.N + 1 < n P := by rw [n_eq]; omega
  have hR : R P (4 * P.N + 2) = 0 := by
    have : 4 * P.N + 2 = 2 * (2 * P.N + 1) := by omega
    rw [this, R_hold]
  rw [qval, build_n, build_beta, build_R, build_Q, hR]
  rw [Finset.sum_congr rfl (fun j _ => by rw [Q_last_row P j])]
  rw [sum_one_ite (n P) (2 * P.N + 1) 1 v hd]
  ring

/-! ### Evaluating one backup step on the built MDP -/

lemma bestIdx_single (f : ℕ → ℝ) (x : ℕ) : bestIdx f [x] = some x := rfl

lemma bestIdx_pair (f : ℕ → ℝ) (x y : ℕ) :
    bestIdx f [x, y] = some (if f x < f y then y else x) := rfl

lemma backValue_price (P : Params) {s : ℕ} (hs : s ≤ 2 * P.N) (v : ℕ → ℝ) :
    backValue (build P) v s =
      max (qval (build P) v (2 * s)) (qval (build P) v (2 * s + 1)) := by
  rw [backValue, pairsOf_price P hs, bestIdx_pair]
  rcases lt_or_le (qval (build P) v (2 * s)) (qval (build P) v (2 * s + 1)) with h | h
  · rw [if_pos h, Option.elim_some, max_eq_right h.le]
  · rw [if_neg (not_lt.mpr h), Option.elim_some, max_eq_left h]

lemma backAction_price (P : Params) {s : ℕ} (hs : s ≤ 2 * P.N) (v : ℕ → ℝ) :
    backAction (build P) v s =
      (if qval (build P) v (2 * s) < qval (build P) v (2 * s + 1) then 1 else 0) := by
  rw [backAction, pairsOf_price P hs, bestIdx_pair]
  rcases lt_or_le (qval (build P) v (2 * s)) (qval (build P) v (2 * s + 1)) with h | h
  · rw [if_pos h, if_pos h, Option.elim_some, build_a_indices]
    simp only [a_indices, m]; omega
  · rw [if_neg (not_lt.mpr h), if_neg (not_lt.mpr h), Option.elim_some, build_a_indices]
    simp only [a_indices, m]; omega

lemma backValue_absorbing (P : Params) (v : ℕ → ℝ) :
    backValue (build P) v (2 * P.N + 1) = qval (build P) v (4 * P.N + 2) := by
  rw [backValue, pairsOf_absorbing P, bestIdx_single, Option.elim_some]

lemma backAction_absorbing (P : Params) (v : ℕ → ℝ) :
    backAction (build P) v (2 * P.N + 1) = 0 := by
  rw [backAction, pairsOf_absorbing P, bestIdx_single, Option.elim_some, build_a_indices]
  simp [a_indices, m]; omega

lemma backValue_out (P : Params) {s : ℕ} (hs : 2 * P.N + 1 < s) (v : ℕ → ℝ) :
    backValue (build P) v s = 0 := by
  rw [backValue, pairsOf_out P hs]
  rfl

/-! ### Feasibility structure of the built MDP -/

lemma feasible_build (P : Params) (s a : ℕ) :
    feasible (build P) s a ↔ (a < 2 ∧ 2 * s + a < L P) := by
  constructor
  · rintro ⟨i, hi, hsi, hai⟩
    rw [build_s_indices] at hsi
    rw [build_a_indices] at hai
    rw [build_L] at hi
    simp [s_indices, m] at hsi
    simp [a_indices, m] at hai
    constructor
    · omega
    · have : i = 2 * s + a := by omega
      omega
  · rintro ⟨ha, hL⟩
    refine ⟨2 * s + a, ?_, ?_, ?_⟩
    · rw [build_L]; exact hL
    · rw [build_s_indices]; simp [s_indices, m]; omega
    · rw [build_a_indices]; simp [a_indices, m]; omega

lemma feasible_build_price (P : Params) {s : ℕ} (hs : s ≤ 2 * P.N) (a : ℕ) :
    feasible (build P) s a ↔ a < 2 := by
  rw [feasible_build, L_eq]
  omega

lemma feasible_build_absorbing (P : Params) (a : ℕ) :
    feasible (build P) (2 * P.N + 1) a ↔ a = 0 := by
  rw [feasible_build, L_eq]
  omega

/-! ### Claim theorems -/

/-- C3: for every price state, the `hold` row places probability `q` on the
one-step-up neighbor and `1 - q` on the one-step-down neighbor with no mass
elsewhere (in particular none on the absorbing state); at the lattice
boundaries the out-of-range neighbor is clamped to the state itself, so the
lowest price state's hold row has `1 - q` on itself and `q` on state `1`,
and the highest price state's hold row has `q` on itself and `1 - q` on its
down-neighbor, with no mass on any other index. -/
theorem C3_hold_transitions (P : Params)
    (hT : 0 < P.T) (hvol : 0 < P.vol) (hr : 0 < P.r) (hK : 0 < P.strike)
    (hp0 : 0 < P.p0) (hN : 1 ≤ P.N) :
    (∀ s : ℕ, 0 < s → s < 2 * P.N →
      (build P).Q (2 * s) (s + 1) = q P ∧
      (build P).Q (2 * s) (s - 1) = 1 - q P ∧
      (∀ j, j ≠ s + 1 → j ≠ s - 1 → (build P).Q (2 * s) j = 0)) ∧
    ((build P).Q (2 * 0) 1 = q P ∧
     (build P).Q (2 * 0) 0 = 1 - q P ∧
     (∀ j, j ≠ 1 → j ≠ 0 → (build P).Q (2 * 0) j = 0)) ∧
    ((build P).Q (2 * (2 * P.N)) (2 * P.N) = q P ∧
     (build P).Q (2 * (2 * P.N)) (2 * P.N - 1) = 1 - q P ∧
     (∀ j, j ≠ 2 * P.N → j ≠ 2 * P.N - 1 → (build P).Q (2 * (2 * P.N)) j = 0)) := by
  refine ⟨?_, ⟨?_, ?_, ?_⟩, ⟨?_, ?_, ?_⟩⟩
  · intro s hs0 hsN
    have hs : s ≤ 2 * P.N := by omega
    refine ⟨?_, ?_, ?_⟩
    · rw [build_Q, Q_hold_row P hs]
      have h1 : ¬ (s + 1 = s - 1) := by omega
      have h2 : s + 1 = min (s + 1) (2 * P.N) := by omega
      rw [if_neg h1, if_pos h2]
    · rw [build_Q, Q_hold_row P hs]
      rw [if_pos rfl]
    · intro j hj1 hj2
      rw [build_Q, Q_hold_row P hs]
      have h1 : ¬ (j = s - 1) := hj2
      have h2 : ¬ (j = min (s + 1) (2 * P.N)) := by omega
      rw [if_neg h1, if_neg h2]
  · rw [build_Q, Q_hold_row P (by omega : 0 ≤ 2 * P.N)]
    have h1 : ¬ (1 = 0 - 1) := by omega
    have h2 : 1 = min (0 + 1) (2 * P.N) := by omega
    rw [if_neg h1, if_pos h2]
  · rw [build_Q, Q_hold_row P (by omega : 0 ≤ 2 * P.N)]
    have h1 : (0 : ℕ) = 0 - 1 := by omega
    rw [if_pos h1]
  · intro j hj1 hj0
    rw [build_Q, Q_hold_row P (by omega : 0 ≤ 2 * P.N)]
    have h1 : ¬ (j = 0 - 1) := by omega
    have h2 : ¬ (j = min (0 + 1) (2 * P.N)) := by omega
    rw [if_neg h1, if_neg h2]
  · rw [build_Q, Q_hold_row P (le_refl (2 * P.N))]
    have h1 : ¬ (2 * P.N = 2 * P.N - 1) := by omega
    have h2 : 2 * P.N = min (2 * P.N + 1) (2 * P.N) := by omega
    rw [if_neg h1, if_pos h2]
  · rw [build_Q, Q_hold_row P (le_refl (2 * P.N))]
    rw [if_pos rfl]
  · intro j hj1 hj2
    rw [build_Q, Q_hold_row P (le_refl (2 * P.N))]
    have h2 : ¬ (j = min (2 * P.N + 1) (2 * P.N)) := by omega
    rw [if_neg hj2, if_neg h2]

/-- C4: from every price state `s` (indices `0..n-2`), the `exercise`
action transitions to the absorbing state `n-1` with probability `1` and
with no mass anywhere else, and its immediate reward is
`strike - ps[s]`, the strike price minus the lattice price of `s`. -/
theorem C4_exercise (P : Params)
    (hT : 0 < P.T) (hvol : 0 < P.vol) (hr : 0 < P.r) (hK : 0 < P.strike)
    (hp0 : 0 < P.p0) (hN : 1 ≤ P.N) :
    ∀ s : ℕ, s ≤ n P - 2 →
      (build P).Q (2 * s + 1) (n P - 1) = 1 ∧
      (∀ j, j ≠ n P - 1 → (build P).Q (2 * s + 1) j = 0) ∧
      (build P).R (2 * s + 1) = P.strike - ps P s := by
  intro s hs
  have hn1 : n P - 1 = 2 * P.N + 1 := by rw [n_eq]; omega
  refine ⟨?_, ?_, ?_⟩
  · rw [build_Q, Q_ex_row, hn1, if_pos rfl]
  · intro j hj
    rw [hn1] at hj
    rw [build_Q, Q_ex_row, if_neg hj]
  · rw [build_R, R_ex]

/-- C5: the absorbing state `n-1` has exactly one feasible action (action
`0`, the single pair `L-1`), that action self-loops with probability `1`
(no mass elsewhere) and has reward `0`, and the state-action pair list has
cardinality `L = 2n - 1`. -/
theorem C5_absorbing_state (P : Params)
    (hT : 0 < P.T) (hvol : 0 < P.vol) (hr : 0 < P.r) (hK : 0 < P.strike)
    (hp0 : 0 < P.p0) (hN : 1 ≤ P.N) :
    (∀ a, feasible (build P) (n P - 1) a ↔ a = 0) ∧
    pairsOf (build P) (n P - 1) = [L P - 1] ∧
    (build P).Q (L P - 1) (n P - 1) = 1 ∧
    (∀ j, j ≠ n P - 1 → (build P).Q (L P - 1) j = 0) ∧
    (build P).R (L P - 1) = 0 ∧
    L P = 2 * n P - 1 := by
  have hn1 : n P - 1 = 2 * P.N + 1 := by rw [n_eq]; omega
  have hL1 : L P - 1 = 4 * P.N + 2 := by rw [L_eq]; omega
  refine ⟨?_, ?_, ?_, ?_, ?_, ?_⟩
  · intro a
    rw [hn1]
    exact feasible_build_absorbing P a
  · rw [hn1, hL1]
    exact pairsOf_absorbing P
  · rw [build_Q, hL1, Q_last_row, hn1, if_pos rfl]
  · intro j hj
    rw [hn1] at hj
    rw [build_Q, hL1, Q_last_row, if_neg hj]
  · rw [build_R, hL1]
    have : 4 * P.N + 2 = 2 * (2 * P.N + 1) := by omega
    rw [this, R_hold]
  · rw [L_eq, n_eq]
    omega

/-- C9: for every state, the immediate reward of action `0` (hold at a
price state, do-nothing at the absorbing state) is exactly `0`, for all
parameter values; every pair with a non-zero reward carries action `1`
(exercise). -/
theorem C9_hold_reward_zero (P : Params) :
    (∀ s, (build P).R (2 * s) = 0) ∧
    (∀ i, (build P).a_indices i = 0 → (build P).R i = 0) := by
  refine ⟨fun s => R_hold P s, fun i hi => ?_⟩
  rw [build_a_indices] at hi
  simp only [a_indices] at hi
  rw [build_R, R]
  rw [if_pos hi]

/-- C2 (amended): for every valid parameter set, every transition row of
the built MDP sums exactly to `1` (hence within tolerance `1e-8`); and
under the additional precondition that the derived up-jump probability `q`
lies in `[0, 1]` (documented by the spec as an unenforced precondition),
all entries are non-negative. -/
theorem C2_row_mass (P : Params)
    (hT : 0 < P.T) (hvol : 0 < P.vol) (hr : 0 < P.r) (hK : 0 < P.strike)
    (hp0 : 0 < P.p0) (hN : 1 ≤ P.N) :
    ∀ i, i < L P →
      (∑ j ∈ Finset.range (n P), (build P).Q i j = 1) ∧
      (0 ≤ q P → q P ≤ 1 → ∀ j, 0 ≤ (build P).Q i j) := by
  intro i hi
  rcases Nat.lt_or_ge i (L P - 1) with hlt | hge
  case inl =>
    -- a pair of a price state
    have hsb : i / 2 ≤ 2 * P.N := by rw [L_eq] at hlt; omega
    rcases Nat.even_or_odd i with ⟨s, hsi⟩ | ⟨s, hsi⟩
    · -- hold pair `i = 2s`
      have hs : s ≤ 2 * P.N := by omega
      have hsi' : i = 2 * s := by omega
      subst hsi'
      have hde : s - 1 ≠ min (s + 1) (2 * P.N) := by omega
      have hd : s - 1 < n P := by rw [n_eq]; omega
      have he : min (s + 1) (2 * P.N) < n P := by rw [n_eq]; omega
      constructor
      · have hone : ∀ j ∈ Finset.range (n P), (build P).Q (2 * s) j
            = (build P).Q (2 * s) j * (fun _ => (1 : ℝ)) j := by
          intro j _; simp
        rw [Finset.sum_congr rfl hone]
        rw [build_Q,
          Finset.sum_congr rfl (fun j _ => by rw [Q_hold_row P hs j]),
          sum_two_ite (n P) (s - 1) (min (s + 1) (2 * P.N)) (1 - q P) (q P)
            (fun _ => (1 : ℝ)) hde hd he]
        ring
      · intro hq0 hq1 j
        rw [build_Q, Q_hold_row P hs j]
        by_cases h1 : j = s - 1
        · rw [if_pos h1]; linarith
        · rw [if_neg h1]
          by_cases h2 : j = min (s + 1) (2 * P.N)
          · rw [if_pos h2]; linarith
          · rw [if_neg h2]
    · -- exercise pair `i = 2s + 1`
      have hsi' : i = 2 * s + 1 := by omega
      subst hsi'
      have hd : 2 * P.N + 1 < n P := by rw [n_eq]; omega
      constructor
      · have hone : ∀ j ∈ Finset.range (n P), (build P).Q (2 * s + 1) j
            = (build P).Q (2 * s + 1) j * (fun _ => (1 : ℝ)) j := by
          intro j _; simp
        rw [Finset.sum_congr rfl hone]
        rw [build_Q,
          Finset.sum_congr rfl (fun j _ => by rw [Q_ex_row P s j]),
          sum_one_ite (n P) (2 * P.N + 1) 1 (fun _ => (1 : ℝ)) hd]
        ring
      · intro hq0 hq1 j
        rw [build_Q, Q_ex_row P s j]
        by_cases h1 : j = 2 * P.N + 1
        · rw [if_pos h1]; norm_num
        · rw [if_neg h1]
  case inr =>
    -- the absorbing pair `i = L - 1`
    have hiL : i = 4 * P.N + 2 := by rw [L_eq] at hi hge; omega
    subst hiL
    have hd : 2 * P.N + 1 < n P := by rw [n_eq]; omega
    constructor
    · have hone : ∀ j ∈ Finset.range (n P), (build P).Q (4 * P.N + 2) j
          = (build P).Q (4 * P.N + 2) j * (fun _ => (1 : ℝ)) j := by
        intro j _; simp
      rw [Finset.sum_congr rfl hone]
      rw [build_Q,
        Finset.sum_congr rfl (fun j _ => by rw [Q_last_row P j]),
        sum_one_ite (n P) (2 * P.N + 1) 1 (fun _ => (1 : ℝ)) hd]
      ring
    · intro hq0 hq1 j
      rw [build_Q, Q_last_row P j]
      by_cases h1 : j = 2 * P.N + 1
      · rw [if_pos h1]; norm_num
      · rw [if_neg h1]

/-- C2 (counterexample): `Pneg` is a valid parameter set (all scale inputs
positive, `N = 1`), yet the hold row of the lowest price state carries the
negative probability `q = -39/20` on its up-neighbor: the claim's
non-negativity fails for inputs meeting the stated preconditions. -/
theorem C2_counterexample :
    (0 < Pneg.T ∧ 0 < Pneg.vol ∧ 0 < Pneg.r ∧ 0 < Pneg.strike ∧
      0 < Pneg.p0 ∧ 1 ≤ Pneg.N) ∧
    (build Pneg).Q (2 * 0) 1 < 0 := by
  have htau : tau Pneg = 1 := by
    simp [tau, Pneg]
  have hq : q Pneg = -(39 / 20) := by
    rw [q, htau, Real.sqrt_one]
    show (1 : ℝ) / 2 + 1 * ((1 : ℝ) - (10 : ℝ) ^ 2 / 2) / (2 * (10 : ℝ)) = _
    norm_num
  constructor
  · refine ⟨by norm_num [Pneg], by norm_num [Pneg], by norm_num [Pneg],
      by norm_num [Pneg], by norm_num [Pneg], by norm_num [Pneg]⟩
  · have hs : 0 ≤ 2 * Pneg.N := by omega
    rw [build_Q, Q_hold_row Pneg hs 1]
    have h1 : ¬ ((1 : ℕ) = 0 - 1) := by omega
    have h2 : (1 : ℕ) = min (0 + 1) (2 * Pneg.N) := by
      show (1 : ℕ) = min 1 2
      omega
    rw [if_neg h1, if_pos h2, hq]
    norm_num

/-- C6: the Builder's derived quantities are exactly the specified pure
functions of the inputs (`tau`, `beta`, `u`, `q` and the lattice
`ps[k] = u^(k-N) * p0`), the up-jump factor exceeds `1`, the `2N+1`
lattice prices are strictly ascending, and the state count is
`n = 2N + 2`. -/
theorem C6_derived_quantities (P : Params)
    (hT : 0 < P.T) (hvol : 0 < P.vol) (hr : 0 < P.r) (hK : 0 < P.strike)
    (hp0 : 0 < P.p0) (hN : 1 ≤ P.N) :
    tau P = P.T / P.N ∧
    beta P = Real.exp (-(P.r * tau P)) ∧
    u P = Real.exp (P.vol * Real.sqrt (tau P)) ∧
    q P = 1 / 2 + Real.sqrt (tau P) * (P.r - P.vol ^ 2 / 2) / (2 * P.vol) ∧
    1 < u P ∧
    (∀ k l : ℕ, k < l → l ≤ 2 * P.N → ps P k < ps P l) ∧
    n P = 2 * P.N + 2 := by
  have hNR : (0 : ℝ) < P.N := by
    have : (1 : ℕ) ≤ P.N := hN
    exact_mod_cast Nat.pos_of_ne_zero (by omega)
  have htau : 0 < tau P := div_pos hT hNR
  have hu : 1 < u P := by
    rw [u]
    exact Real.one_lt_exp_iff.mpr (mul_pos hvol (Real.sqrt_pos.mpr htau))
  refine ⟨rfl, rfl, rfl, rfl, hu, ?_, rfl⟩
  intro k l hkl hl
  rw [ps, ps]
  have hexp : ((k : ℤ) - P.N) < ((l : ℤ) - P.N) := by omega
  exact mul_lt_mul_of_pos_right (zpow_lt_zpow_right₀ hu hexp) hp0

/-- C7: building fails with `InvalidParameter` exactly when some input is
non-positive or `num_periods < 1`; on valid inputs the full MDP is
produced (no error). -/
theorem C7_invalid_parameter (P : Params) :
    (build_checked P = Except.error BuildError.InvalidParameter ↔
      ¬ (0 < P.T ∧ 0 < P.vol ∧ 0 < P.r ∧ 0 < P.strike ∧ 0 < P.p0 ∧ 1 ≤ P.N)) ∧
    (build_checked P = Except.ok (build P) ↔
      (0 < P.T ∧ 0 < P.vol ∧ 0 < P.r ∧ 0 < P.strike ∧ 0 < P.p0 ∧ 1 ≤ P.N)) := by
  by_cases h : 0 < P.T ∧ 0 < P.vol ∧ 0 < P.r ∧ 0 < P.strike ∧ 0 < P.p0 ∧ 1 ≤ P.N
  · rw [build_checked, if_pos h]
    constructor
    · constructor
      · intro hcontra
        exact absurd hcontra (by simp)
      · intro hcontra
        exact absurd h hcontra
    · simp [h]
  · rw [build_checked, if_neg h]
    constructor
    · simp [h]
    · constructor
      · intro hcontra
        exact absurd hcontra (by simp)
      · intro hvalid
        exact absurd hvalid h

/-- C1: for every MDP built by the Builder, every horizon `H ≥ 1`, period
`t < H` and state `s`, the solver's value `V_t(s)` equals the Q-value of
the returned policy action, no feasible action has a strictly higher
Q-value (so `V_t(s)` is the maximum over feasible actions of
`reward(s,a) + β Σ_{s'} P(s,a,s') V_{t+1}(s')`), the policy action is
feasible, and ties are broken towards the lowest action index. -/
theorem C1_backup_optimality (P : Params)
    (hT : 0 < P.T) (hvol : 0 < P.vol) (hr : 0 < P.r) (hK : 0 < P.strike)
    (hp0 : 0 < P.p0) (hN : 1 ≤ P.N)
    (H t s : ℕ) (hH : 1 ≤ H) (ht : t < H) (hs : s < n P) :
    feasible (build P) s (policySeq (build P) H vzero t s) ∧
    valueSeq (build P) H vzero t s
      = qval (build P) (vIter (build P) vzero (H - (t + 1)))
          (2 * s + policySeq (build P) H vzero t s) ∧
    (∀ a, feasible (build P) s a →
      qval (build P) (vIter (build P) vzero (H - (t + 1))) (2 * s + a)
        ≤ valueSeq (build P) H vzero t s) ∧
    (∀ a, feasible (build P) s a →
      qval (build P) (vIter (build P) vzero (H - (t + 1))) (2 * s + a)
        = valueSeq (build P) H vzero t s →
      policySeq (build P) H vzero t s ≤ a) := by
  set v : ℕ → ℝ := vIter (build P) vzero (H - (t + 1)) with hv
  have hval : valueSeq (build P) H vzero t s = backValue (build P) v s := by
    rw [valueSeq, show H - t = (H - (t + 1)) + 1 by omega]
    rfl
  have hpol : policySeq (build P) H vzero t s = backAction (build P) v s := rfl
  rw [n_eq] at hs
  by_cases hsp : s ≤ 2 * P.N
  · -- price state
    have hfa : ∀ a, feasible (build P) s a ↔ a < 2 := feasible_build_price P hsp
    rw [hval, hpol, backValue_price P hsp, backAction_price P hsp]
    by_cases hlt : qval (build P) v (2 * s) < qval (build P) v (2 * s + 1)
    · rw [if_pos hlt, max_eq_right hlt.le]
      refine ⟨(hfa 1).mpr (by omega), rfl, ?_, ?_⟩
      · intro a ha
        have ha2 : a < 2 := (hfa a).mp ha
        interval_cases a
        · exact hlt.le
        · exact le_refl _
      · intro a ha heq
        have ha2 : a < 2 := (hfa a).mp ha
        interval_cases a
        · exact absurd heq (by simp; linarith)
        · exact le_refl 1
    · rw [if_neg hlt, max_eq_left (not_lt.mp hlt)]
      refine ⟨(hfa 0).mpr (by omega), by norm_num, ?_, ?_⟩
      · intro a ha
        have ha2 : a < 2 := (hfa a).mp ha
        interval_cases a
        · norm_num
        · exact not_lt.mp hlt
      · intro a ha heq
        exact Nat.zero_le a
  · -- absorbing state
    have hsa : s = 2 * P.N + 1 := by omega
    subst hsa
    have hfa : ∀ a, feasible (build P) (2 * P.N + 1) a ↔ a = 0 :=
      feasible_build_absorbing P
    have h24 : 2 * (2 * P.N + 1) + 0 = 4 * P.N + 2 := by omega
    rw [hval, hpol, backValue_absorbing P, backAction_absorbing P]
    refine ⟨(hfa 0).mpr rfl, by rw [h24], ?_, ?_⟩
    · intro a ha
      have ha0 : a = 0 := (hfa a).mp ha
      subst ha0
      rw [h24]
    · intro a ha heq
      exact Nat.zero_le a

/-- C10: if the derived up-jump probability lies in `[0, 1]` and the
terminal value vector is the zero vector, every value produced by backward
induction on the built MDP is non-negative, at every period and state. -/
theorem C10_values_nonneg (P : Params)
    (hT : 0 < P.T) (hvol : 0 < P.vol) (hr : 0 < P.r) (hK : 0 < P.strike)
    (hp0 : 0 < P.p0) (hN : 1 ≤ P.N)
    (hq0 : 0 ≤ q P) (hq1 : q P ≤ 1) :
    ∀ H t s : ℕ, t ≤ H → 0 ≤ valueSeq (build P) H vzero t s := by
  have key : ∀ k s : ℕ, 0 ≤ vIter (build P) vzero k s := by
    intro k
    induction k with
    | zero => intro s; exact le_refl 0
    | succ k ih =>
      intro s
      show 0 ≤ backValue (build P) (vIter (build P) vzero k) s
      by_cases hsp : s ≤ 2 * P.N
      · rw [backValue_price P hsp]
        have h0 : 0 ≤ qval (build P) (vIter (build P) vzero k) (2 * s) := by
          rw [qval_hold P hN hsp]
          have h1 := ih (s - 1)
          have h2 := ih (min (s + 1) (2 * P.N))
          have hb := (beta_pos P).le
          have hq1' : 0 ≤ 1 - q P := by linarith
          exact mul_nonneg hb
            (add_nonneg (mul_nonneg hq1' h1) (mul_nonneg hq0 h2))
        exact le_trans h0 (le_max_left _ _)
      · by_cases hsa : s = 2 * P.N + 1
        · subst hsa
          rw [backValue_absorbing P, qval_last P]
          exact mul_nonneg (beta_pos P).le (ih _)
        · rw [backValue_out P (by omega)]
  intro H t s ht
  exact key (H - t) s

/-- C8 (amended): for two parameter sets differing only in the strike
price, and under the additional precondition that the derived up-jump
probability lies in `[0, 1]` (so the transition rows are genuine
probability distributions), raising the strike price never decreases any
value produced by backward induction — in particular `V_0(s)` for every
price state `s`. -/
theorem C8_monotone_in_strike (T vol r p0 : ℝ) (N : ℕ) (K1 K2 : ℝ)
    (hT : 0 < T) (hvol : 0 < vol) (hr : 0 < r) (hp0 : 0 < p0) (hN : 1 ≤ N)
    (hK1 : 0 < K1) (hK12 : K1 ≤ K2)
    (hq0 : 0 ≤ q ⟨T, vol, r, K1, p0, N⟩) (hq1 : q ⟨T, vol, r, K1, p0, N⟩ ≤ 1) :
    ∀ H s : ℕ,
      valueSeq (build ⟨T, vol, r, K1, p0, N⟩) H vzero 0 s
        ≤ valueSeq (build ⟨T, vol, r, K2, p0, N⟩) H vzero 0 s := by
  set P1 : Params := ⟨T, vol, r, K1, p0, N⟩ with hP1
  set P2 : Params := ⟨T, vol, r, K2, p0, N⟩ with hP2
  have hqq : q P2 = q P1 := rfl
  have hbb : beta P2 = beta P1 := rfl
  have hps : ps P2 = ps P1 := rfl
  have hN2 : P2.N = P1.N := rfl
  have key : ∀ k s : ℕ,
      vIter (build P1) vzero k s ≤ vIter (build P2) vzero k s := by
    intro k
    induction k with
    | zero => intro s; exact le_refl _
    | succ k ih =>
      intro s
      show backValue (build P1) (vIter (build P1) vzero k) s
        ≤ backValue (build P2) (vIter (build P2) vzero k) s
      by_cases hsp : s ≤ 2 * P1.N
      · rw [backValue_price P1 hsp, backValue_price P2 (hN2 ▸ hsp)]
        have hhold :
            qval (build P1) (vIter (build P1) vzero k) (2 * s)
              ≤ qval (build P2) (vIter (build P2) vzero k) (2 * s) := by
          rw [qval_hold P1 hN hsp, qval_hold P2 hN (hN2 ▸ hsp), hqq, hbb, hN2]
          have h1 := ih (s - 1)
          have h2 := ih (min (s + 1) (2 * P1.N))
          have hq1' : 0 ≤ 1 - q P1 := by linarith
          have hb := (beta_pos P1).le
          apply mul_le_mul_of_nonneg_left _ hb
          exact add_le_add (mul_le_mul_of_nonneg_left h1 hq1')
            (mul_le_mul_of_nonneg_left h2 hq0)
        have hex :
            qval (build P1) (vIter (build P1) vzero k) (2 * s + 1)
              ≤ qval (build P2) (vIter (build P2) vzero k) (2 * s + 1) := by
          rw [qval_ex P1 s, qval_ex P2 s, hbb, hps, hN2]
          have h1 := ih (2 * P1.N + 1)
          have hKK : P1.strike ≤ P2.strike := hK12
          have hb := (beta_pos P1).le
          exact add_le_add (by linarith)
            (mul_le_mul_of_nonneg_left h1 hb)
        exact max_le_max hhold hex
      · by_cases hsa : s = 2 * P1.N + 1
        · subst hsa
          rw [backValue_absorbing P1, show 2 * P1.N + 1 = 2 * P2.N + 1 from rfl,
            backValue_absorbing P2, qval_last P1, qval_last P2, hbb, hN2]
          exact mul_le_mul_of_nonneg_left (ih (2 * P1.N + 1)) (beta_pos P1).le
        · rw [backValue_out P1 (by omega), backValue_out P2 (by omega)]
  intro H s
  exact key (H - 0) s

/-! ### Concrete evaluation of the solver on `Pc1` and `Pc2` -/

lemma tau_Pc1 : tau Pc1 = 1 := by
  rw [tau]; norm_num [Pc1]

lemma tau_Pc2 : tau Pc2 = 1 := by
  rw [show tau Pc2 = tau Pc1 from rfl, tau_Pc1]

lemma q_Pc1 : q Pc1 = 9 / 4 := by
  rw [q, tau_Pc1, Real.sqrt_one]; norm_num [Pc1]

lemma q_Pc2 : q Pc2 = 9 / 4 := by
  rw [show q Pc2 = q Pc1 from rfl, q_Pc1]

lemma beta_Pc1 : beta Pc1 = Real.exp (-4) := by
  rw [beta, tau_Pc1]; norm_num [Pc1]

lemma beta_Pc2 : beta Pc2 = Real.exp (-4) := by
  rw [show beta Pc2 = beta Pc1 from rfl, beta_Pc1]

lemma u_Pc1 : u Pc1 = Real.exp 1 := by
  rw [u, tau_Pc1, Real.sqrt_one]; norm_num [Pc1]

lemma ps3_Pc1 : ps Pc1 3 = Real.exp 1 := by
  rw [ps, u_Pc1]
  norm_num [Pc1]

lemma ps3_Pc2 : ps Pc2 3 = Real.exp 1 := by
  rw [show ps Pc2 = ps Pc1 from rfl, ps3_Pc1]

lemma ps4_Pc1 : ps Pc1 4 = Real.exp 1 * Real.exp 1 := by
  rw [ps, u_Pc1]
  have h : ((4 : ℕ) : ℤ) - (Pc1.N : ℤ) = ((2 : ℕ) : ℤ) := by norm_num [Pc1]
  rw [h, zpow_natCast, pow_two]
  norm_num [Pc1]

lemma ps4_Pc2 : ps Pc2 4 = Real.exp 1 * Real.exp 1 := by
  rw [show ps Pc2 = ps Pc1 from rfl, ps4_Pc1]

lemma N_Pc1 : Pc1.N = 2 := rfl

lemma N_Pc2 : Pc2.N = 2 := rfl

lemma v1_Pc1_3 : vIter (build Pc1) vzero 1 3 = 0 := by
  show backValue (build Pc1) vzero 3 = 0
  rw [backValue_price Pc1 (by rw [N_Pc1]; omega : (3 : ℕ) ≤ 2 * Pc1.N),
    qval_hold Pc1 (by rw [N_Pc1]; omega) (by rw [N_Pc1]; omega : (3 : ℕ) ≤ 2 * Pc1.N),
    qval_ex Pc1 3, ps3_Pc1]
  simp only [vzero, mul_zero, add_zero, zero_add]
  have hs : Pc1.strike = 2 := rfl
  rw [hs, max_eq_left (by linarith [Real.exp_one_gt_d9])]

lemma v1_Pc2_3 : vIter (build Pc2) vzero 1 3 = 3 - Real.exp 1 := by
  show backValue (build Pc2) vzero 3 = 3 - Real.exp 1
  rw [backValue_price Pc2 (by rw [N_Pc2]; omega : (3 : ℕ) ≤ 2 * Pc2.N),
    qval_hold Pc2 (by rw [N_Pc2]; omega) (by rw [N_Pc2]; omega : (3 : ℕ) ≤ 2 * Pc2.N),
    qval_ex Pc2 3, ps3_Pc2]
  simp only [vzero, mul_zero, add_zero, zero_add]
  have hs : Pc2.strike = 3 := rfl
  rw [hs, max_eq_right (by linarith [Real.exp_one_lt_d9])]

lemma v1_Pc1_4 : vIter (build Pc1) vzero 1 4 = 0 := by
  show backValue (build Pc1) vzero 4 = 0
  rw [backValue_price Pc1 (by rw [N_Pc1] : (4 : ℕ) ≤ 2 * Pc1.N),
    qval_hold Pc1 (by rw [N_Pc1]; omega) (by rw [N_Pc1] : (4 : ℕ) ≤ 2 * Pc1.N),
    qval_ex Pc1 4, ps4_Pc1]
  simp only [vzero, mul_zero, add_zero, zero_add]
  have hs : Pc1.strike = 2 := rfl
  rw [hs, max_eq_left ?_]
  nlinarith [Real.exp_one_gt_d9, sq_nonneg (Real.exp 1 - 2.7182818283)]

lemma v1_Pc2_4 : vIter (build Pc2) vzero 1 4 = 0 := by
  show backValue (build Pc2) vzero 4 = 0
  rw [backValue_price Pc2 (by rw [N_Pc2] : (4 : ℕ) ≤ 2 * Pc2.N),
    qval_hold Pc2 (by rw [N_Pc2]; omega) (by rw [N_Pc2] : (4 : ℕ) ≤ 2 * Pc2.N),
    qval_ex Pc2 4, ps4_Pc2]
  simp only [vzero, mul_zero, add_zero, zero_add]
  have hs : Pc2.strike = 3 := rfl
  rw [hs, max_eq_left ?_]
  nlinarith [Real.exp_one_gt_d9, sq_nonneg (Real.exp 1 - 2.7182818283)]

lemma v1_Pc1_5 : vIter (build Pc1) vzero 1 5 = 0 := by
  show backValue (build Pc1) vzero 5 = 0
  rw [show (5 : ℕ) = 2 * Pc1.N + 1 by rw [N_Pc1], backValue_absorbing Pc1,
    qval_last Pc1]
  simp [vzero]

lemma v1_Pc2_5 : vIter (build Pc2) vzero 1 5 = 0 := by
  show backValue (build Pc2) vzero 5 = 0
  rw [show (5 : ℕ) = 2 * Pc2.N + 1 by rw [N_Pc2], backValue_absorbing Pc2,
    qval_last Pc2]
  simp [vzero]

lemma v0_Pc1_4 : vIter (build Pc1) vzero 2 4 = 0 := by
  show backValue (build Pc1) (vIter (build Pc1) vzero 1) 4 = 0
  rw [backValue_price Pc1 (by rw [N_Pc1] : (4 : ℕ) ≤ 2 * Pc1.N),
    qval_hold Pc1 (by rw [N_Pc1]; omega) (by rw [N_Pc1] : (4 : ℕ) ≤ 2 * Pc1.N),
    qval_ex Pc1 4, ps4_Pc1]
  have hidx1 : (4 : ℕ) - 1 = 3 := by norm_num
  have hidx2 : min (4 + 1) (2 * Pc1.N) = 4 := by rw [N_Pc1]; omega
  have hidx3 : 2 * Pc1.N + 1 = 5 := by rw [N_Pc1]
  rw [hidx1, hidx2, hidx3, v1_Pc1_3, v1_Pc1_4, v1_Pc1_5]
  have hs : Pc1.strike = 2 := rfl
  rw [hs]
  have h0 : beta Pc1 * ((1 - q Pc1) * 0 + q Pc1 * 0) = 0 := by ring
  rw [h0, max_eq_left ?_]
  nlinarith [Real.exp_one_gt_d9, sq_nonneg (Real.exp 1 - 2.7182818283)]

lemma v0_Pc2_4 :
    vIter (build Pc2) vzero 2 4 =
      Real.exp (-4) * ((1 - 9 / 4) * (3 - Real.exp 1)) := by
  show backValue (build Pc2) (vIter (build Pc2) vzero 1) 4 = _
  rw [backValue_price Pc2 (by rw [N_Pc2] : (4 : ℕ) ≤ 2 * Pc2.N),
    qval_hold Pc2 (by rw [N_Pc2]; omega) (by rw [N_Pc2] : (4 : ℕ) ≤ 2 * Pc2.N),
    qval_ex Pc2 4, ps4_Pc2]
  have hidx1 : (4 : ℕ) - 1 = 3 := by norm_num
  have hidx2 : min (4 + 1) (2 * Pc2.N) = 4 := by rw [N_Pc2]; omega
  have hidx3 : 2 * Pc2.N + 1 = 5 := by rw [N_Pc2]
  rw [hidx1, hidx2, hidx3, v1_Pc2_3, v1_Pc2_4, v1_Pc2_5, q_Pc2, beta_Pc2]
  have hs : Pc2.strike = 3 := rfl
  rw [hs]
  have h0 : Real.exp (-4) * ((1 - 9 / 4) * (3 - Real.exp 1) + 9 / 4 * 0)
      = Real.exp (-4) * ((1 - 9 / 4) * (3 - Real.exp 1)) := by ring
  rw [h0]
  have hb_pos : (0 : ℝ) < Real.exp (-4) := Real.exp_pos _
  have hb_le1 : Real.exp (-4) ≤ 1 := Real.exp_le_one_iff.mpr (by norm_num)
  apply max_eq_left
  nlinarith [Real.exp_one_gt_d9, Real.exp_one_lt_d9, hb_pos, hb_le1,
    sq_nonneg (Real.exp 1 - 2.7182818283),
    mul_nonneg (sub_nonneg.mpr hb_le1)
      (by nlinarith [Real.exp_one_lt_d9] :
        (0 : ℝ) ≤ -((1 - 9 / 4) * (3 - Real.exp 1)))]

/-- C8 (counterexample): `Pc1` and `Pc2` are valid parameter sets that
differ only in the strike price (`2` versus `3`), yet at price state `4`
(the highest lattice price) the period-0 value under the larger strike is
strictly smaller than under the smaller strike: the derived up-jump
probability here is `9/4 ∉ [0,1]`, and monotonicity of `V_0` in the strike
fails. -/
theorem C8_counterexample :
    (Pc1.T = Pc2.T ∧ Pc1.vol = Pc2.vol ∧ Pc1.r = Pc2.r ∧ Pc1.p0 = Pc2.p0 ∧
      Pc1.N = Pc2.N ∧ Pc1.strike ≤ Pc2.strike) ∧
    (0 < Pc1.T ∧ 0 < Pc1.vol ∧ 0 < Pc1.r ∧ 0 < Pc1.strike ∧ 0 < Pc1.p0 ∧
      1 ≤ Pc1.N) ∧
    (0 < Pc2.strike) ∧
    valueSeq (build Pc2) Pc2.N vzero 0 4 < valueSeq (build Pc1) Pc1.N vzero 0 4 := by
  refine ⟨⟨rfl, rfl, rfl, rfl, rfl, by norm_num [Pc1, Pc2]⟩,
    ⟨by norm_num [Pc1], by norm_num [Pc1], by norm_num [Pc1],
      by norm_num [Pc1], by norm_num [Pc1], by rw [N_Pc1]; omega⟩,
    by norm_num [Pc2], ?_⟩
  have h1 : valueSeq (build Pc1) Pc1.N vzero 0 4 = vIter (build Pc1) vzero 2 4 := by
    rw [valueSeq, N_Pc1]
  have h2 : valueSeq (build Pc2) Pc2.N vzero 0 4 = vIter (build Pc2) vzero 2 4 := by
    rw [valueSeq, N_Pc2]
  rw [h1, h2, v0_Pc1_4, v0_Pc2_4]
  have hb_pos : (0 : ℝ) < Real.exp (-4) := Real.exp_pos _
  have hneg : (1 - 9 / 4 : ℝ) * (3 - Real.exp 1) < 0 := by
    nlinarith [Real.exp_one_lt_d9]
  exact mul_neg_of_pos_of_neg hb_pos hneg

/-! ### Witnesses at the concrete parameter set `P0` -/

lemma tau_P0 : tau P0 = 1 := by
  rw [tau]; norm_num [P0]

lemma q_P0 : q P0 = 1 / 2 := by
  rw [q, tau_P0, Real.sqrt_one]; norm_num [P0]

theorem C1_witness :
    ((0 : ℝ) < P0.T ∧ (0 : ℝ) < P0.vol ∧ (0 : ℝ) < P0.r ∧ (0 : ℝ) < P0.strike ∧
      (0 : ℝ) < P0.p0 ∧ 1 ≤ P0.N ∧ (1 : ℕ) ≤ 1 ∧ (0 : ℕ) < 1 ∧ (0 : ℕ) < n P0) ∧
    feasible (build P0) 0 (policySeq (build P0) 1 vzero 0 0) :=
  ⟨⟨by norm_num [P0], by norm_num [P0], by norm_num [P0], by norm_num [P0],
      by norm_num [P0], by norm_num [P0], le_refl 1, by omega, by rw [n_eq]; omega⟩,
    (C1_backup_optimality P0 (by norm_num [P0]) (by norm_num [P0]) (by norm_num [P0])
      (by norm_num [P0]) (by norm_num [P0]) (by norm_num [P0]) 1 0 0
      (le_refl 1) (by omega) (by rw [n_eq]; omega)).1⟩

theorem C2_witness :
    ((0 : ℝ) < P0.T ∧ (0 : ℝ) < P0.vol ∧ (0 : ℝ) < P0.r ∧ (0 : ℝ) < P0.strike ∧
      (0 : ℝ) < P0.p0 ∧ 1 ≤ P0.N ∧ (0 : ℕ) < L P0) ∧
    (∑ j ∈ Finset.range (n P0), (build P0).Q 0 j = 1) :=
  ⟨⟨by norm_num [P0], by norm_num [P0], by norm_num [P0], by norm_num [P0],
      by norm_num [P0], by norm_num [P0], by rw [L_eq]; omega⟩,
    (C2_row_mass P0 (by norm_num [P0]) (by norm_num [P0]) (by norm_num [P0])
      (by norm_num [P0]) (by norm_num [P0]) (by norm_num [P0]) 0
      (by rw [L_eq]; omega)).1⟩

theorem C3_witness :
    ((0 : ℝ) < P0.T ∧ (0 : ℝ) < P0.vol ∧ (0 : ℝ) < P0.r ∧ (0 : ℝ) < P0.strike ∧
      (0 : ℝ) < P0.p0 ∧ 1 ≤ P0.N) ∧
    (build P0).Q (2 * 0) 1 = q P0 :=
  ⟨⟨by norm_num [P0], by norm_num [P0], by norm_num [P0], by norm_num [P0],
      by norm_num [P0], by norm_num [P0]⟩,
    (C3_hold_transitions P0 (by norm_num [P0]) (by norm_num [P0]) (by norm_num [P0])
      (by norm_num [P0]) (by norm_num [P0]) (by norm_num [P0])).2.1.1⟩

theorem C4_witness :
    ((0 : ℝ) < P0.T ∧ (0 : ℝ) < P0.vol ∧ (0 : ℝ) < P0.r ∧ (0 : ℝ) < P0.strike ∧
      (0 : ℝ) < P0.p0 ∧ 1 ≤ P0.N ∧ (0 : ℕ) ≤ n P0 - 2) ∧
    (build P0).Q (2 * 0 + 1) (n P0 - 1) = 1 :=
  ⟨⟨by norm_num [P0], by norm_num [P0], by norm_num [P0], by norm_num [P0],
      by norm_num [P0], by norm_num [P0], by omega⟩,
    ((C4_exercise P0 (by norm_num [P0]) (by norm_num [P0]) (by norm_num [P0])
      (by norm_num [P0]) (by norm_num [P0]) (by norm_num [P0])) 0 (by omega)).1⟩

theorem C5_witness :
    ((0 : ℝ) < P0.T ∧ (0 : ℝ) < P0.vol ∧ (0 : ℝ) < P0.r ∧ (0 : ℝ) < P0.strike ∧
      (0 : ℝ) < P0.p0 ∧ 1 ≤ P0.N) ∧
    (build P0).Q (L P0 - 1) (n P0 - 1) = 1 :=
  ⟨⟨by norm_num [P0], by norm_num [P0], by norm_num [P0], by norm_num [P0],
      by norm_num [P0], by norm_num [P0]⟩,
    (C5_absorbing_state P0 (by norm_num [P0]) (by norm_num [P0]) (by norm_num [P0])
      (by norm_num [P0]) (by norm_num [P0]) (by norm_num [P0])).2.2.1⟩

theorem C6_witness :
    ((0 : ℝ) < P0.T ∧ (0 : ℝ) < P0.vol ∧ (0 : ℝ) < P0.r ∧ (0 : ℝ) < P0.strike ∧
      (0 : ℝ) < P0.p0 ∧ 1 ≤ P0.N) ∧
    1 < u P0 :=
  ⟨⟨by norm_num [P0], by norm_num [P0], by norm_num [P0], by norm_num [P0],
      by norm_num [P0], by norm_num [P0]⟩,
    (C6_derived_quantities P0 (by norm_num [P0]) (by norm_num [P0]) (by norm_num [P0])
      (by norm_num [P0]) (by norm_num [P0]) (by norm_num [P0])).2.2.2.2.1⟩

theorem C8_witness :
    ((0 : ℝ) < 1 ∧ (0 : ℝ) < 1 ∧ (0 : ℝ) < 1 / 2 ∧ (0 : ℝ) < 1 ∧ (1 : ℕ) ≤ 1 ∧
      (0 : ℝ) < 1 ∧ (1 : ℝ) ≤ 2 ∧
      0 ≤ q ⟨1, 1, 1 / 2, 1, 1, 1⟩ ∧ q ⟨1, 1, 1 / 2, 1, 1, 1⟩ ≤ 1) ∧
    valueSeq (build ⟨1, 1, 1 / 2, 1, 1, 1⟩) 1 vzero 0 0
      ≤ valueSeq (build ⟨1, 1, 1 / 2, 2, 1, 1⟩) 1 vzero 0 0 :=
  ⟨⟨by norm_num, by norm_num, by norm_num, by norm_num, le_refl 1, by norm_num,
      by norm_num,
      by rw [show (⟨1, 1, 1 / 2, 1, 1, 1⟩ : Params) = P0 from rfl, q_P0]; norm_num,
      by rw [show (⟨1, 1, 1 / 2, 1, 1, 1⟩ : Params) = P0 from rfl, q_P0]; norm_num⟩,
    C8_monotone_in_strike 1 1 (1 / 2) 1 1 1 2 (by norm_num) (by norm_num)
      (by norm_num) (by norm_num) (le_refl 1) (by norm_num) (by norm_num)
      (by rw [show (⟨1, 1, 1 / 2, 1, 1, 1⟩ : Params) = P0 from rfl, q_P0]; norm_num)
      (by rw [show (⟨1, 1, 1 / 2, 1, 1, 1⟩ : Params) = P0 from rfl, q_P0]; norm_num)
      1 0⟩

theorem C9_witness :
    (build P0).R (2 * 0) = 0 ∧ ((build P0).a_indices 0 = 0 ∧ (build P0).R 0 = 0) :=
  ⟨(C9_hold_reward_zero P0).1 0, rfl, (C9_hold_reward_zero P0).2 0 rfl⟩

theorem C10_witness :
    ((0 : ℝ) < P0.T ∧ (0 : ℝ) < P0.vol ∧ (0 : ℝ) < P0.r ∧ (0 : ℝ) < P0.strike ∧
      (0 : ℝ) < P0.p0 ∧ 1 ≤ P0.N ∧ 0 ≤ q P0 ∧ q P0 ≤ 1 ∧ (0 : ℕ) ≤ 1) ∧
    0 ≤ valueSeq (build P0) 1 vzero 0 0 :=
  ⟨⟨by norm_num [P0], by norm_num [P0], by norm_num [P0], by norm_num [P0],
      by norm_num [P0], by norm_num [P0], by rw [q_P0]; norm_num,
      by rw [q_P0]; norm_num, by omega⟩,
    C10_values_nonneg P0 (by norm_num [P0]) (by norm_num [P0]) (by norm_num [P0])
      (by norm_num [P0]) (by norm_num [P0]) (by norm_num [P0])
      (by rw [q_P0]; norm_num) (by rw [q_P0]; norm_num) 1 0 0 (by omega)⟩

end

end OptionDDP
